import Mathlib

/-!
Verification development for the encrypted retrieval pipeline of the
CyborgDB demonstration repository (NestJS backend).

The TypeScript sources are shallowly embedded as Lean definitions:

* JavaScript strings are modelled as `List Char` with faithful
  re-implementations of the string operations the code uses
  (`split`, `trim`, `join`, negative `slice`).
* `DocumentChunkerService.chunkText` / `splitIntoSentences`
  (src/backend/src/modules/rag/document-chunker.service.ts).
* `EmbeddingsService.generateEmbeddings`
  (src/backend/src/modules/embeddings/embeddings.service.ts); the
  provider call `generateEmbedding` is an abstract parameter, and
  `Promise.all(batch.map f)` is modelled by `List.map f` on the batch,
  which is exactly the order contract of `Promise.all`.
* `EncryptionService` (src/backend/src/modules/encryption/encryption.service.ts):
  the Node `crypto` library (AES-256-GCM via `createCipheriv` /
  `createDecipheriv`, base64 via `Buffer`, and `JSON.stringify` /
  `JSON.parse` of numeric arrays) is an external collaborator, so it is
  modelled by a structure `NodeCrypto` whose fields carry the library
  operations together with their documented contracts (AEAD round-trip
  and authenticity, base64 and JSON round-trips).  A concrete instance
  `nodeCryptoModel` witnesses that the contracts are satisfiable.
* `RagService.ingestDocument` / `retrieve` and
  `CyborgDbService.upsert` (src/backend/src/modules/rag/rag.service.ts,
  src/backend/src/modules/cyborgdb/cyborgdb.service.ts).
-/

/-! ## JavaScript string model -/

/-- A JavaScript string, modelled as its list of characters. -/
abbrev JsStr := List Char

/-- Whitespace characters removed by JavaScript `String.prototype.trim`
(the ones that can occur in this pipeline). -/
def isWsChar (c : Char) : Bool :=
  c == ' ' || c == '\t' || c == '\n' || c == '\r'

/-- Leading-whitespace removal, one half of JS `trim`. -/
def trimStart (s : JsStr) : JsStr := s.dropWhile isWsChar

/-- Trailing-whitespace removal, the other half of JS `trim`. -/
def trimEnd (s : JsStr) : JsStr := (s.reverse.dropWhile isWsChar).reverse

/-- JS `String.prototype.trim`: drop whitespace from both ends. -/
def jsTrim (s : JsStr) : JsStr := trimStart (trimEnd s)

/-- Sentence-terminal punctuation of the regex `[.!?]+` in
`DocumentChunkerService.splitIntoSentences`. -/
def isSentenceSep (c : Char) : Bool :=
  c == '.' || c == '!' || c == '?'

/-- Split a string at every character satisfying `p`, keeping empty
segments.  `split(/[.!?]+/)` merges runs of separators, producing fewer
empty segments than this function; since `splitIntoSentences` filters
out all segments that are empty after trimming, the final result is the
same, and this simpler splitter is used. -/
def splitAtSeps (p : Char → Bool) : JsStr → List JsStr
  | [] => [[]]
  | c :: rest =>
    match splitAtSeps p rest with
    | [] => if p c then [[], []] else [[c]]
    | s :: ss => if p c then [] :: s :: ss else (c :: s) :: ss

/-- Model of `DocumentChunkerService.splitIntoSentences`:
`text.split(/[.!?]+/).map(s => s.trim()).filter(s => s.length > 0)`. -/
def splitIntoSentences (text : JsStr) : List JsStr :=
  ((splitAtSeps isSentenceSep text).map jsTrim).filter (fun s => s.length > 0)

/-! ## DocumentChunkerService -/

/-- The chunking configuration read from `rag.chunkSize` and
`rag.chunkOverlap`. -/
structure ChunkerConfig where
  chunkSize : Nat
  chunkOverlap : Nat
  deriving DecidableEq

/-- The `TextChunk` interface of document-chunker.service.ts (the
optional carried metadata is not modelled; no claim concerns it). -/
structure TextChunk where
  text : JsStr
  index : Nat
  deriving DecidableEq

/-- JS `arr.slice(-n)` as called on the overlap-word computation:
for `n = 0` JavaScript evaluates `slice(-0) = slice(0)`, the whole
array; for `n > 0` it is the last `min n length` elements. -/
def jsSliceNeg {α : Type} (n : Nat) (l : List α) : List α :=
  if n = 0 then l else l.drop (l.length - n)

/-- The overlap seed that starts a new chunk after one is closed:
`currentChunk.split(' ')`, `words.slice(-Math.floor(chunkOverlap / 5))`,
`overlapWords.join(' ') + ' '`. -/
def overlapSeed (cfg : ChunkerConfig) (prev : JsStr) : JsStr :=
  List.intercalate [' '] (jsSliceNeg (cfg.chunkOverlap / 5) (prev.splitOn ' ')) ++ [' ']

/-- The loop state of `chunkText`: accumulated chunks, the running
buffer `currentChunk`, and `chunkIndex`. -/
structure ChunkerState where
  chunks : List TextChunk
  current : JsStr
  chunkIndex : Nat

/-- One iteration of the `for (const sentence of sentences)` loop in
`chunkText`.  Note that when the overflow branch fires, the sentence is
appended to the freshly seeded buffer without a second size check. -/
def chunkStep (cfg : ChunkerConfig) (st : ChunkerState) (sentence : JsStr) : ChunkerState :=
  let st1 :=
    if cfg.chunkSize < st.current.length + sentence.length ∧ 0 < st.current.length then
      { chunks := st.chunks ++ [{ text := jsTrim st.current, index := st.chunkIndex }],
        current := overlapSeed cfg st.current,
        chunkIndex := st.chunkIndex + 1 }
    else st
  { st1 with current := st1.current ++ sentence ++ [' '] }

/-- Model of `DocumentChunkerService.chunkText`: fold the sentences through
`chunkStep`, then flush the remaining buffer if its trim is non-empty. -/
def chunkText (cfg : ChunkerConfig) (text : JsStr) : List TextChunk :=
  let st := (splitIntoSentences text).foldl (chunkStep cfg) ⟨[], [], 0⟩
  if 0 < (jsTrim st.current).length then
    st.chunks ++ [{ text := jsTrim st.current, index := st.chunkIndex }]
  else st.chunks

/-! ## EmbeddingsService -/

/-- The consecutive windows of at most `mc` texts processed by the
`for (let i = 0; i < texts.length; i += maxConcurrent)` loop of
`generateEmbeddings`.  With `mc = 0` and a non-empty input the
JavaScript loop never advances (it diverges); that branch is modelled
by exhausting a fuel counter (the input length, consumed one unit per
window) and every theorem about batching assumes `0 < mc`. -/
def windowsAux {α : Type} (mc : Nat) : Nat → List α → List (List α)
  | _, [] => []
  | 0, _ :: _ => []
  | fuel + 1, a :: l => (a :: l).take mc :: windowsAux mc fuel ((a :: l).drop mc)

/-- The window list itself: the fuel `l.length` is enough for any
positive `mc`, since every iteration removes at least one element. -/
def windows {α : Type} (mc : Nat) (l : List α) : List (List α) :=
  windowsAux mc l.length l

/-- Model of `EmbeddingsService.generateEmbeddings`, parametric in the per-text
provider call `embed` (OpenAI or Ollama backend).  Each window is
processed by `Promise.all(batch.map(text => generateEmbedding(text)))`,
whose contract is that results match input order, modelled by
`batch.map embed`; windows are processed sequentially and appended to
`results`. -/
def generateEmbeddings {E : Type} (maxConcurrent : Nat) (embed : JsStr → E)
    (texts : List JsStr) : List E :=
  (windows maxConcurrent texts).foldl (fun acc batch => acc ++ batch.map embed) []

/-! ## EncryptionService: the Node crypto collaborator -/

/-- The operations of the Node `crypto` / `Buffer` / `JSON` libraries
used by `EncryptionService`, together with their documented contracts.
Bytes are modelled as `Nat`.

* `jsonStringifyVec` / `jsonParseVec`: `Buffer.from(JSON.stringify(vector))`
  and `JSON.parse(decrypted.toString())`.  JavaScript serializes each
  number with a shortest round-tripping representation, so parsing the
  serialization returns the vector exactly (`json_roundtrip`).
* `aeadSeal key iv pt`: the AES-256-GCM encryption pass
  (`createCipheriv`, `update`/`final`, `getAuthTag`), returning the
  ciphertext and the 16-byte authentication tag.
* `aeadOpen key iv tag ct`: the decryption pass (`createDecipheriv`,
  `setAuthTag`, `update`/`final`); `none` models the thrown
  authentication error.  Its contract is the AEAD authenticity
  guarantee the spec assumes of AES-256-GCM: decryption succeeds
  exactly on authentically sealed payloads (`open_sound` with the
  injectivity laws), and tag verification binds the tag to the key,
  IV, and ciphertext.
* `b64encode` / `b64decode`: `combined.toString('base64')` and
  `Buffer.from(encryptedData, 'base64')`; Node base64 decoding is
  lenient and never throws, and decoding an encoding returns the
  original bytes. -/
structure NodeCrypto where
  jsonStringifyVec : List ℚ → List Nat
  jsonParseVec : List Nat → Option (List ℚ)
  aeadSeal : List Nat → List Nat → List Nat → List Nat × List Nat
  aeadOpen : List Nat → List Nat → List Nat → List Nat → Option (List Nat)
  b64encode : List Nat → String
  b64decode : String → List Nat
  json_roundtrip : ∀ v, jsonParseVec (jsonStringifyVec v) = some v
  seal_tag_len : ∀ key iv pt, (aeadSeal key iv pt).2.length = 16
  open_seal : ∀ key iv pt,
    aeadOpen key iv (aeadSeal key iv pt).2 (aeadSeal key iv pt).1 = some pt
  open_sound : ∀ key iv tag ct pt,
    aeadOpen key iv tag ct = some pt → aeadSeal key iv pt = (ct, tag)
  seal_ct_inj : ∀ key iv p q,
    (aeadSeal key iv p).1 = (aeadSeal key iv q).1 → p = q
  seal_tag_inj : ∀ key iv iv2 p q,
    (aeadSeal key iv p).2 = (aeadSeal key iv2 q).2 → iv = iv2 ∧ p = q
  b64_roundtrip : ∀ bs, b64decode (b64encode bs) = bs

/-- The error classes JavaScript exceptions can carry here: plain
`Error` (also used for the OpenSSL authentication failure) and
`SyntaxError` (thrown by `JSON.parse`). -/
inductive JsErrorKind
  | genericError
  | syntaxError
  deriving DecidableEq

/-- A thrown JavaScript error: its class and its message. -/
structure JsError where
  kind : JsErrorKind
  message : String
  deriving DecidableEq

/-- The error Node throws when GCM tag verification fails. -/
def authFailureError : JsError :=
  { kind := JsErrorKind.genericError
    message := "Unsupported state or unable to authenticate data" }

/-- The error `JSON.parse` throws on input that is not valid JSON. -/
def jsonParseError : JsError :=
  { kind := JsErrorKind.syntaxError
    message := "Unexpected token in JSON" }

/-- The `catch` block of `decryptVector`:
`throw new Error(\x7bDecryption failed: $\x7berror.message\x7d\x7d)` —
every inner failure is rethrown as a plain `Error` whose message embeds
the inner message. -/
def wrapDecryptError (e : JsError) : JsError :=
  { kind := JsErrorKind.genericError
    message := "Decryption failed: " ++ e.message }

/-- Model of `EncryptionService.encryptVector`: serialize the vector, run
AES-256-GCM under the service key and a fresh 12-byte IV (the
`crypto.randomBytes(12)` result is the explicit argument `iv`), and
return `base64(iv || authTag || ciphertext)`. -/
def encryptVector (NC : NodeCrypto) (key iv : List Nat) (vector : List ℚ) : String :=
  let vectorBuffer := NC.jsonStringifyVec vector
  let sealed := NC.aeadSeal key iv vectorBuffer
  NC.b64encode (iv ++ sealed.2 ++ sealed.1)

/-- Model of `EncryptionService.decryptVector`: decode base64, split the bytes
at the fixed offsets 12 and 28 into IV, auth tag, and ciphertext, run
authenticated decryption, then `JSON.parse`.  Failures are wrapped by
the `catch` block into a plain `Error` (`wrapDecryptError`). -/
def decryptVector (NC : NodeCrypto) (key : List Nat) (encryptedData : String) :
    Except JsError (List ℚ) :=
  let combined := NC.b64decode encryptedData
  let iv := combined.take 12
  let authTag := (combined.drop 12).take 16
  let encrypted := combined.drop 28
  match NC.aeadOpen key iv authTag encrypted with
  | none => Except.error (wrapDecryptError authFailureError)
  | some decrypted =>
    match NC.jsonParseVec decrypted with
    | none => Except.error (wrapDecryptError jsonParseError)
    | some v => Except.ok v

/-- The decoded byte layout `iv || authTag || ciphertext` of a payload
produced by `encryptVector`, before base64 encoding. -/
def encryptedPayloadBytes (NC : NodeCrypto) (key iv : List Nat) (vector : List ℚ) : List Nat :=
  iv ++ (NC.aeadSeal key iv (NC.jsonStringifyVec vector)).2
     ++ (NC.aeadSeal key iv (NC.jsonStringifyVec vector)).1

/-- The key check in the `EncryptionService` constructor:
`if (!keyHex || keyHex.length !== 64) throw ...`.  `none` models a
missing configuration value; an empty string is falsy in JavaScript but
also has length 0 at 64, so the modelled condition coincides. -/
def constructorRejectsKey (keyHex : Option JsStr) : Bool :=
  match keyHex with
  | none => true
  | some s => !(s.length == 64)

/-- A hexadecimal digit. -/
def isHexDigit (c : Char) : Bool :=
  ('0' ≤ c && c ≤ '9') || ('a' ≤ c && c ≤ 'f') || ('A' ≤ c && c ≤ 'F')

/-- A string that represents exactly 256 bits of key material: 64
hexadecimal characters. -/
def represents256BitKey (s : JsStr) : Prop :=
  s.length = 64 ∧ ∀ c ∈ s, isHexDigit c

instance (s : JsStr) : Decidable (represents256BitKey s) := by
  unfold represents256BitKey; infer_instance

/-! ## CyborgDbService and RagService data model -/

/-- The metadata map `ingestDocument` attaches to each record:
`{documentId, chunkIndex, chunkText, encrypted: true,
encryptedData: <base64 payload>, ...document.metadata}`.  On the
retrieve side `encryptedData` is overwritten with `undefined`, modelled
by `none`. -/
structure RecordMetadata where
  documentId : JsStr
  chunkIndex : Nat
  chunkText : JsStr
  encrypted : Bool
  encryptedData : Option String
  docMeta : List (JsStr × JsStr)
  deriving DecidableEq

/-- The `VectorRecord` interface upserted into CyborgDB. -/
structure VectorRecordM where
  id : JsStr
  vector : List ℚ
  metadata : RecordMetadata
  deriving DecidableEq

/-- The wire object `CyborgDbService.upsert` posts for each record:
`{id: record.id, values: record.vector, metadata: record.metadata}`. -/
structure WireVector where
  id : JsStr
  values : List ℚ
  metadata : RecordMetadata
  deriving DecidableEq

/-- The body of the POST to `/indexes/:name/upsert`. -/
def upsertWire (records : List VectorRecordM) : List WireVector :=
  records.map (fun r => { id := r.id, values := r.vector, metadata := r.metadata })

/-- A `QueryResult` returned by `CyborgDbService.query`. -/
structure QueryResultM where
  id : JsStr
  score : ℚ
  metadata : RecordMetadata
  deriving DecidableEq

/-- A `RetrievalResult` returned by `RagService.retrieve`. -/
structure RetrievalResultM where
  id : JsStr
  content : JsStr
  score : ℚ
  metadata : RecordMetadata
  deriving DecidableEq

/-- A `Document` handed to `RagService.ingestDocument`. -/
structure DocumentM where
  id : JsStr
  content : JsStr
  metadata : List (JsStr × JsStr)
  deriving DecidableEq

/-- Decimal rendering of a natural number, for the template string
`$\x7bdocument.id\x7d_chunk_$\x7bi\x7d`. -/
def natDecimal (n : Nat) : JsStr :=
  if n = 0 then ['0'] else ((Nat.digits 10 n).map (fun d => Char.ofNat (48 + d))).reverse

/-- The deterministic chunk identifier built by `ingestDocument`. -/
def mkChunkId (docId : JsStr) (i : Nat) : JsStr :=
  docId ++ "_chunk_".toList ++ natDecimal i

/-- The collaborators injected into `RagService`, with the two sources
of nondeterminism made explicit: `ivFor i` is the `crypto.randomBytes(12)`
result of the `i`-th encryption call, and `embed` is the embedding
provider. -/
structure IngestEnv where
  NC : NodeCrypto
  key : List Nat
  ivFor : Nat → List Nat
  embed : JsStr → List ℚ
  cfg : ChunkerConfig
  maxConcurrent : Nat

/-- The records built by the `for (let i = 0; i < chunks.length; i++)`
loop of `RagService.ingestDocument`: the record's `vector` field is the
plaintext embedding (`vector: embedding`), while the encrypted payload
goes into `metadata.encryptedData`.  `getD` models the JavaScript index
accesses `embeddingResults[i]` / `chunks[i]`, which are in bounds for
every `i < chunks.length` whenever the embedding batch preserves
length. -/
def ingestRecords (env : IngestEnv) (doc : DocumentM) : List VectorRecordM :=
  let chunks := chunkText env.cfg doc.content
  let texts := chunks.map (fun c => c.text)
  let embeddings := generateEmbeddings env.maxConcurrent env.embed texts
  (List.range chunks.length).map (fun i =>
    { id := mkChunkId doc.id i
      vector := embeddings.getD i []
      metadata :=
        { documentId := doc.id
          chunkIndex := i
          chunkText := (chunks.getD i ⟨[], 0⟩).text
          encrypted := true
          encryptedData :=
            some (encryptVector env.NC env.key (env.ivFor i) (embeddings.getD i []))
          docMeta := doc.metadata } })

/-- The observable outcome of one `ingestDocument` call: the returned
identifiers, how many `generateEmbedding` provider calls were issued,
and the `upsert` calls made to the store with their wire payloads. -/
structure IngestOutcome where
  result : List JsStr
  providerCalls : Nat
  storeUpsertCalls : List (List WireVector)
  deriving DecidableEq

/-- Model of `RagService.ingestDocument` with its collaborator interactions made
observable.  The source performs no validation of any kind: it chunks,
embeds, encrypts, and then always calls `upsert` exactly once (also
with an empty record list), returning the record identifiers. -/
def ingestDocumentTrace (env : IngestEnv) (doc : DocumentM) : IngestOutcome :=
  let chunks := chunkText env.cfg doc.content
  let texts := chunks.map (fun c => c.text)
  let records := ingestRecords env doc
  { result := records.map (fun r => r.id)
    providerCalls := ((windows env.maxConcurrent texts).map (fun w => w.length)).sum
    storeUpsertCalls := [upsertWire records] }

/-- The JavaScript truthiness coercion in
`const k = topK || this.maxContextChunks`: `undefined`/`null` (here
`none`) and `0` are falsy and select the default. -/
def jsOrNum (v : Option Int) (dflt : Int) : Int :=
  match v with
  | none => dflt
  | some t => if t = 0 then dflt else t

/-- The per-result mapping inside `RagService.retrieve`: expose the
chunk text carried in metadata and the score, and overwrite
`encryptedData` with `undefined`. -/
def toRetrievalResult (r : QueryResultM) : RetrievalResultM :=
  { id := r.id
    content := r.metadata.chunkText
    score := r.score
    metadata := { r.metadata with encryptedData := none } }

/-- Steps 3 and 4 of `RagService.retrieve`:
`results.filter(r => r.score >= threshold).map(...)`. -/
def filterByThreshold (threshold : ℚ) (results : List QueryResultM) :
    List RetrievalResultM :=
  (results.filter (fun r => threshold ≤ r.score)).map toRetrievalResult

/-- Model of `RagService.retrieve`, parametric in the embedding provider and the
store's `query` endpoint (`store queryVector k` is the ordered match
list CyborgDB returns for that vector and `topK`). -/
def retrieveModel (store : List ℚ → Int → List QueryResultM) (embedQ : JsStr → List ℚ)
    (maxContextChunks : Int) (threshold : ℚ) (query : JsStr) (topK : Option Int) :
    List RetrievalResultM :=
  let queryEmbedding := embedQ query
  let k := jsOrNum topK maxContextChunks
  let results := store queryEmbedding k
  filterByThreshold threshold results

/-! ## A concrete model of the Node crypto collaborator

The abstract `NodeCrypto` contracts are exactly the guarantees the spec
assumes of AES-256-GCM, base64, and JSON.  To show they are satisfiable
(and to provide concrete inputs for witnesses and counterexamples), a
computable instance is built from injective encodings: the "tag" of a
sealed payload determines key, IV, and plaintext, so tag verification
models ideal AEAD authenticity. -/

/-- Injective encoding of a byte list into a natural number. -/
def encodeBytes (l : List Nat) : Nat := Encodable.encode l

/-- The model authentication value: injective in key, IV, and
plaintext, and always positive. -/
def mkTag (key iv pt : List Nat) : Nat :=
  Nat.pair (encodeBytes key) (Nat.pair (encodeBytes iv) (encodeBytes pt)) + 1

/-- The model 16-byte tag field: the authentication value followed by
15 padding zeros. -/
def modelTag (key iv pt : List Nat) : List Nat :=
  mkTag key iv pt :: List.replicate 15 0

/-- Model AEAD seal: the ciphertext is the plaintext itself (no
confidentiality is claimed by any law) and the tag binds key, IV and
plaintext. -/
def modelSeal (key iv pt : List Nat) : List Nat × List Nat :=
  (pt, modelTag key iv pt)

/-- Model AEAD open: accept exactly the matching tag. -/
def modelOpen (key iv tag ct : List Nat) : Option (List Nat) :=
  if tag = modelTag key iv ct then some ct else none

/-- Model JSON serialization of a vector: a single positive "byte". -/
def modelStringify (v : List ℚ) : List Nat :=
  [Encodable.encode v + 1]

/-- Model JSON parsing: inverse of `modelStringify`; anything else is
a parse failure. -/
def modelParse (bs : List Nat) : Option (List ℚ) :=
  match bs with
  | [Nat.succ n] => Encodable.decode n
  | _ => none

/-- Decimal digit characters for the model base64 encoder. -/
def decDigitChar (d : Nat) : Char := Char.ofNat (48 + d)

/-- Inverse of `decDigitChar` on decimal digits. -/
def decDigitVal (c : Char) : Nat := c.toNat - 48

/-- Model text-safe encoding of a byte list: the decimal digits of its
injective numeric encoding. -/
def modelB64Encode (bs : List Nat) : String :=
  String.mk ((Nat.digits 10 (encodeBytes bs)).map decDigitChar)

/-- Model text-safe decoding, total like Node's lenient base64 parser. -/
def modelB64Decode (s : String) : List Nat :=
  Denumerable.ofNat (List Nat) (Nat.ofDigits 10 (s.data.map decDigitVal))

lemma decDigitVal_decDigitChar {d : Nat} (h : d < 10) :
    decDigitVal (decDigitChar d) = d := by
  interval_cases d <;> rfl

lemma modelB64_roundtrip (bs : List Nat) :
    modelB64Decode (modelB64Encode bs) = bs := by
  unfold modelB64Decode modelB64Encode
  have hdata : (String.mk ((Nat.digits 10 (encodeBytes bs)).map decDigitChar)).data
      = (Nat.digits 10 (encodeBytes bs)).map decDigitChar := rfl
  rw [hdata, List.map_map]
  have hmap : (Nat.digits 10 (encodeBytes bs)).map (decDigitVal ∘ decDigitChar)
      = Nat.digits 10 (encodeBytes bs) := by
    refine List.map_congr_left ?_ |>.trans (List.map_id _)
    intro d hd
    exact decDigitVal_decDigitChar (Nat.digits_lt_base (by norm_num) hd)
  rw [hmap, Nat.ofDigits_digits]
  exact Denumerable.ofNat_encode bs

lemma mkTag_inj {key iv iv2 p q : List Nat}
    (h : mkTag key iv p = mkTag key iv2 q) : iv = iv2 ∧ p = q := by
  unfold mkTag at h
  have h2 := Nat.pair_eq_pair.mp (Nat.succ_injective h)
  have h3 := Nat.pair_eq_pair.mp h2.2
  exact ⟨Encodable.encode_injective h3.1, Encodable.encode_injective h3.2⟩

lemma modelTag_inj {key iv iv2 p q : List Nat}
    (h : modelTag key iv p = modelTag key iv2 q) : iv = iv2 ∧ p = q := by
  unfold modelTag at h
  exact mkTag_inj (List.cons_eq_cons.mp h).1

/-- A concrete, computable `NodeCrypto` satisfying every contract. -/
def nodeCryptoModel : NodeCrypto where
  jsonStringifyVec := modelStringify
  jsonParseVec := modelParse
  aeadSeal := modelSeal
  aeadOpen := modelOpen
  b64encode := modelB64Encode
  b64decode := modelB64Decode
  json_roundtrip := by
    intro v
    show modelParse (modelStringify v) = some v
    unfold modelParse modelStringify
    exact Encodable.encodek v
  seal_tag_len := by
    intro key iv pt
    show (modelTag key iv pt).length = 16
    simp [modelTag]
  open_seal := by
    intro key iv pt
    show modelOpen key iv (modelTag key iv pt) pt = some pt
    unfold modelOpen
    rw [if_pos rfl]
  open_sound := by
    intro key iv tag ct pt h
    unfold modelOpen at h
    by_cases hc : tag = modelTag key iv ct
    · rw [if_pos hc] at h
      cases h
      rw [hc]
      rfl
    · rw [if_neg hc] at h
      exact absurd h (by simp)
  seal_ct_inj := by
    intro key iv p q h
    exact h
  seal_tag_inj := by
    intro key iv iv2 p q h
    exact modelTag_inj h
  b64_roundtrip := modelB64_roundtrip

/-! ## Helper lemmas about decryption -/

lemma take_append_of_length {α : Type} {s : List α} (t : List α) {n : Nat}
    (h : s.length = n) : (s ++ t).take n = s := by
  subst h; exact List.take_left s t

lemma drop_append_of_length {α : Type} {s : List α} (t : List α) {n : Nat}
    (h : s.length = n) : (s ++ t).drop n = t := by
  subst h; exact List.drop_left s t

/-- Evaluating `decryptVector` on an encoded `iv || tag || ct` layout recovers the
three fields by the fixed offsets whenever the IV has 12 bytes and the
tag 16. -/
lemma decryptVector_split (NC : NodeCrypto) (key iv tg ct : List Nat)
    (hiv : iv.length = 12) (htg : tg.length = 16) :
    decryptVector NC key (NC.b64encode (iv ++ tg ++ ct)) =
      match NC.aeadOpen key iv tg ct with
      | none => Except.error (wrapDecryptError authFailureError)
      | some decrypted =>
        match NC.jsonParseVec decrypted with
        | none => Except.error (wrapDecryptError jsonParseError)
        | some v => Except.ok v := by
  unfold decryptVector
  rw [NC.b64_roundtrip]
  have h1 : (iv ++ (tg ++ ct)).take 12 = iv := take_append_of_length _ hiv
  have h2 : (iv ++ (tg ++ ct)).drop 12 = tg ++ ct := drop_append_of_length _ hiv
  have h3 : (iv ++ (tg ++ ct)).drop 28 = ct := by
    have h28 : ((iv ++ tg) ++ ct).drop 28 = ct :=
      drop_append_of_length _ (by rw [List.length_append, hiv, htg])
    rw [← List.append_assoc]
    exact h28
  simp only [List.append_assoc]
  rw [h1, h2, h3, take_append_of_length _ htg]

/-- Opening a sealed payload under a corrupted IV fails: the tag binds
the IV. -/
lemma aeadOpen_wrong_iv (NC : NodeCrypto) (key iv iv2 pt : List Nat)
    (h : iv2 ≠ iv) :
    NC.aeadOpen key iv2 (NC.aeadSeal key iv pt).2 (NC.aeadSeal key iv pt).1 = none := by
  cases hopen : NC.aeadOpen key iv2 (NC.aeadSeal key iv pt).2 (NC.aeadSeal key iv pt).1 with
  | none => rfl
  | some q =>
    have hs := NC.open_sound _ _ _ _ _ hopen
    have htag : (NC.aeadSeal key iv2 q).2 = (NC.aeadSeal key iv pt).2 := by rw [hs]
    exact absurd (NC.seal_tag_inj _ _ _ _ _ htag).1 h

/-- Opening a sealed payload under a corrupted tag fails. -/
lemma aeadOpen_wrong_tag (NC : NodeCrypto) (key iv pt tg : List Nat)
    (h : tg ≠ (NC.aeadSeal key iv pt).2) :
    NC.aeadOpen key iv tg (NC.aeadSeal key iv pt).1 = none := by
  cases hopen : NC.aeadOpen key iv tg (NC.aeadSeal key iv pt).1 with
  | none => rfl
  | some q =>
    have hs := NC.open_sound _ _ _ _ _ hopen
    have hct : (NC.aeadSeal key iv q).1 = (NC.aeadSeal key iv pt).1 := by rw [hs]
    have hq := NC.seal_ct_inj _ _ _ _ hct
    have : tg = (NC.aeadSeal key iv pt).2 := by rw [← hq, hs]
    exact absurd this h

/-- Opening a sealed payload against corrupted ciphertext fails: the
tag binds the ciphertext. -/
lemma aeadOpen_wrong_ct (NC : NodeCrypto) (key iv pt ct2 : List Nat)
    (h : ct2 ≠ (NC.aeadSeal key iv pt).1) :
    NC.aeadOpen key iv (NC.aeadSeal key iv pt).2 ct2 = none := by
  cases hopen : NC.aeadOpen key iv (NC.aeadSeal key iv pt).2 ct2 with
  | none => rfl
  | some q =>
    have hs := NC.open_sound _ _ _ _ _ hopen
    have htag : (NC.aeadSeal key iv q).2 = (NC.aeadSeal key iv pt).2 := by rw [hs]
    have hq := (NC.seal_tag_inj _ _ _ _ _ htag).2
    have : ct2 = (NC.aeadSeal key iv pt).1 := by rw [← hq, hs]
    exact absurd this h

lemma set_ne_self {α : Type} {l : List α} {i : Nat} {b d : α}
    (h : i < l.length) (hb : b ≠ l.getD i d) : l.set i b ≠ l := by
  intro he
  apply hb
  rw [List.getD_eq_getElem _ _ h]
  have hg : (l.set i b).get ⟨i, by simpa using h⟩ = b := List.getElem_set_self _
  rw [List.get_eq_getElem, List.getElem_of_eq he] at hg
  exact hg.symm

/-! ## Claims about the cipher (C2, C3) -/

/-- C2: for every numeric vector `v`, decrypting the result of
encrypting `v` under the same key returns `v` exactly, component-wise:
`decryptVector (encryptVector v) = v`.  The 12-byte IV produced by
`crypto.randomBytes(12)` is the explicit argument `iv`. -/
theorem decrypt_encrypt_roundtrip (NC : NodeCrypto) (key iv : List Nat) (v : List ℚ)
    (hiv : iv.length = 12) :
    decryptVector NC key (encryptVector NC key iv v) = Except.ok v := by
  have h := decryptVector_split NC key iv (NC.aeadSeal key iv (NC.jsonStringifyVec v)).2
    (NC.aeadSeal key iv (NC.jsonStringifyVec v)).1 hiv
    (NC.seal_tag_len key iv (NC.jsonStringifyVec v))
  rw [NC.open_seal] at h
  simp only [NC.json_roundtrip] at h
  exact h

/-- Witness for C2 at a concrete key, IV, and vector. -/
theorem decrypt_encrypt_roundtrip_witness :
    (List.replicate 12 0 : List Nat).length = 12 ∧
    decryptVector nodeCryptoModel [] (encryptVector nodeCryptoModel [] (List.replicate 12 0) [1]) =
      Except.ok [1] :=
  ⟨by decide, decrypt_encrypt_roundtrip nodeCryptoModel [] (List.replicate 12 0) [1] (by decide)⟩

/-- C3: flipping any single byte of a valid payload's IV region (bytes
0..11), auth-tag region (bytes 12..27), or ciphertext region (bytes 28
and up) makes `decryptVector` fail with the authentication error and
yield no vector at all.  The first conjunct records that the bytes
being corrupted are exactly the ones `encryptVector` encodes. -/
theorem decrypt_rejects_byte_flip (NC : NodeCrypto) (key iv : List Nat) (v : List ℚ)
    (i b : Nat) (hiv : iv.length = 12)
    (hlt : i < (encryptedPayloadBytes NC key iv v).length)
    (hb : b ≠ (encryptedPayloadBytes NC key iv v).getD i 0) :
    NC.b64encode (encryptedPayloadBytes NC key iv v) = encryptVector NC key iv v ∧
    decryptVector NC key (NC.b64encode ((encryptedPayloadBytes NC key iv v).set i b)) =
      Except.error (wrapDecryptError authFailureError) := by
  refine ⟨rfl, ?_⟩
  have htglen : (NC.aeadSeal key iv (NC.jsonStringifyVec v)).2.length = 16 :=
    NC.seal_tag_len key iv (NC.jsonStringifyVec v)
  set pt := NC.jsonStringifyVec v with hpt
  set tg := (NC.aeadSeal key iv pt).2 with htgdef
  set ct := (NC.aeadSeal key iv pt).1 with hctdef
  have hbytes : encryptedPayloadBytes NC key iv v = iv ++ tg ++ ct := rfl
  have h28 : (iv ++ tg).length = 28 := by rw [List.length_append, hiv, htglen]
  rw [hbytes] at hlt hb ⊢
  have hctlen : i < 28 + ct.length := by
    have := hlt
    rw [List.length_append, h28] at this
    omega
  by_cases hi1 : i < 12
  · have hin : i < (iv ++ tg).length := by omega
    have hset : (iv ++ tg ++ ct).set i b = iv.set i b ++ tg ++ ct := by
      rw [List.set_append, if_pos hin, List.set_append, if_pos (by omega)]
    have hbi : b ≠ iv.getD i 0 := by
      rw [List.getD_append _ _ _ _ hin, List.getD_append _ _ _ _ (by omega)] at hb
      exact hb
    rw [hset,
      decryptVector_split NC key _ tg ct (by rw [List.length_set]; exact hiv) htglen,
      aeadOpen_wrong_iv NC key iv _ pt (set_ne_self (by omega) hbi)]
  · by_cases hi2 : i < 28
    · have hin : i < (iv ++ tg).length := by omega
      have hset : (iv ++ tg ++ ct).set i b = iv ++ tg.set (i - 12) b ++ ct := by
        rw [List.set_append, if_pos hin, List.set_append, if_neg (by omega), hiv]
      have hbi : b ≠ tg.getD (i - 12) 0 := by
        rw [List.getD_append _ _ _ _ hin,
          List.getD_append_right _ _ _ _ (by omega), hiv] at hb
        exact hb
      have htgne : tg.set (i - 12) b ≠ tg := set_ne_self (by omega) hbi
      rw [hset,
        decryptVector_split NC key iv _ ct hiv (by rw [List.length_set]; exact htglen),
        aeadOpen_wrong_tag NC key iv pt _ htgne]
    · have hset : (iv ++ tg ++ ct).set i b = iv ++ tg ++ ct.set (i - 28) b := by
        rw [List.set_append, if_neg (by omega), h28]
      have hbi : b ≠ ct.getD (i - 28) 0 := by
        rw [List.getD_append_right _ _ _ _ (by omega), h28] at hb
        exact hb
      have hctne : ct.set (i - 28) b ≠ ct := set_ne_self (by omega) hbi
      rw [hset, decryptVector_split NC key iv tg _ hiv htglen,
        aeadOpen_wrong_ct NC key iv pt _ hctne]

/-- Witness for C3: flip byte 0 (the IV region) of a concrete payload. -/
theorem decrypt_rejects_byte_flip_witness :
    (List.replicate 12 0 : List Nat).length = 12 ∧
    0 < (encryptedPayloadBytes nodeCryptoModel [] (List.replicate 12 0) [1]).length ∧
    (1 : Nat) ≠ (encryptedPayloadBytes nodeCryptoModel [] (List.replicate 12 0) [1]).getD 0 0 ∧
    decryptVector nodeCryptoModel []
        (nodeCryptoModel.b64encode
          ((encryptedPayloadBytes nodeCryptoModel [] (List.replicate 12 0) [1]).set 0 1)) =
      Except.error (wrapDecryptError authFailureError) :=
  ⟨by decide, by decide, by decide,
    (decrypt_rejects_byte_flip nodeCryptoModel [] (List.replicate 12 0) [1] 0 1
      (by decide) (by decide) (by decide)).2⟩

/-! ## Claims about decryption errors and the key check (C4, C8) -/

/-- A 12-byte all-zero IV for concrete payloads. -/
def ivZeroBytes : List Nat := List.replicate 12 0

/-- A payload whose tag field cannot verify: decryption fails with the
authentication error. -/
def authFailDemoPayload : String :=
  nodeCryptoModel.b64encode (ivZeroBytes ++ List.replicate 16 0 ++ [0])

/-- A payload that authenticates but whose plaintext is not valid JSON:
decryption fails with the wrapped parse error. -/
def parseFailDemoPayload : String :=
  nodeCryptoModel.b64encode (ivZeroBytes ++ modelTag [] ivZeroBytes [0] ++ [0])

lemma decrypt_authFailDemo :
    decryptVector nodeCryptoModel [] authFailDemoPayload =
      Except.error (wrapDecryptError authFailureError) := by
  unfold authFailDemoPayload
  rw [decryptVector_split nodeCryptoModel [] ivZeroBytes (List.replicate 16 0) [0]
    (by decide) (by decide)]
  have hopen : nodeCryptoModel.aeadOpen [] ivZeroBytes (List.replicate 16 0) [0] = none := by
    show modelOpen [] ivZeroBytes (List.replicate 16 0) [0] = none
    unfold modelOpen
    have hne : (List.replicate 16 0 : List Nat) ≠ modelTag [] ivZeroBytes [0] := by
      unfold modelTag
      intro he
      have hz : (0 : Nat) = mkTag [] ivZeroBytes [0] := by
        simpa [List.replicate_succ] using he
      unfold mkTag at hz
      omega
    rw [if_neg hne]
  rw [hopen]

lemma decrypt_parseFailDemo :
    decryptVector nodeCryptoModel [] parseFailDemoPayload =
      Except.error (wrapDecryptError jsonParseError) := by
  unfold parseFailDemoPayload
  rw [decryptVector_split nodeCryptoModel [] ivZeroBytes (modelTag [] ivZeroBytes [0]) [0]
    (by decide) (by simp [modelTag])]
  have hopen : nodeCryptoModel.aeadOpen [] ivZeroBytes (modelTag [] ivZeroBytes [0]) [0] =
      some [0] := by
    show modelOpen [] ivZeroBytes (modelTag [] ivZeroBytes [0]) [0] = some [0]
    unfold modelOpen
    rw [if_pos rfl]
  rw [hopen]
  rfl

/-- C4 counterexample: a tampered payload (authentication failure) and
a malformed-plaintext payload (decoding failure) surface to the caller
with the same error kind — both are rethrown as a plain `Error` by the
catch-all in `decryptVector`, so the two causes are not distinguishable
by error kind. -/
theorem decrypt_error_kinds_indistinguishable :
    decryptVector nodeCryptoModel [] authFailDemoPayload =
      Except.error (wrapDecryptError authFailureError) ∧
    decryptVector nodeCryptoModel [] parseFailDemoPayload =
      Except.error (wrapDecryptError jsonParseError) ∧
    (wrapDecryptError authFailureError).kind = (wrapDecryptError jsonParseError).kind :=
  ⟨decrypt_authFailDemo, decrypt_parseFailDemo, rfl⟩

/-- C4 amended: every `decryptVector` failure reaches the caller as the
same generic `Error` kind; the failure cause (tag verification versus
decoding) is recorded only in the embedded message text. -/
theorem decrypt_failures_wrapped_as_generic_error (NC : NodeCrypto) (key : List Nat)
    (s : String) (e : JsError) (h : decryptVector NC key s = Except.error e) :
    e.kind = JsErrorKind.genericError ∧
    (e = wrapDecryptError authFailureError ∨ e = wrapDecryptError jsonParseError) := by
  simp only [decryptVector] at h
  split at h
  · cases h
    exact ⟨rfl, Or.inl rfl⟩
  · split at h
    · cases h
      exact ⟨rfl, Or.inr rfl⟩
    · simp at h

/-- Witness for the amended C4 at a concrete failing payload. -/
theorem decrypt_failures_wrapped_as_generic_error_witness :
    decryptVector nodeCryptoModel [] authFailDemoPayload =
      Except.error (wrapDecryptError authFailureError) ∧
    (wrapDecryptError authFailureError).kind = JsErrorKind.genericError :=
  ⟨decrypt_authFailDemo,
    (decrypt_failures_wrapped_as_generic_error nodeCryptoModel [] authFailDemoPayload _
      decrypt_authFailDemo).1⟩

/-- C8 counterexample: a 64-character key of letters outside the hex
alphabet does not represent 256 bits of key material, yet the
constructor accepts it — only the length is checked. -/
theorem key_check_accepts_nonhex_64_chars :
    constructorRejectsKey (some (List.replicate 64 'z')) = false ∧
    ¬ represents256BitKey (List.replicate 64 'z') :=
  ⟨by decide, by decide⟩

/-- C8 amended: construction fails exactly when the key is missing or
its length differs from 64 characters; hexadecimal validity is not
checked (and with a well-formed 64-hex-character key construction
succeeds, since such a key passes the length test). -/
theorem key_check_exactly_length_64 (keyHex : Option JsStr) :
    constructorRejectsKey keyHex = false ↔ ∃ s, keyHex = some s ∧ s.length = 64 := by
  cases keyHex with
  | none => simp [constructorRejectsKey]
  | some s => simp [constructorRejectsKey]

/-! ## Claim about batch embedding (C7) -/

lemma windows_nil {α : Type} (mc : Nat) : windows mc ([] : List α) = [] := rfl

lemma windowsAux_fuel {α : Type} (mc : Nat) (hmc : 0 < mc) :
    ∀ (f1 f2 : Nat) (l : List α), l.length ≤ f1 → l.length ≤ f2 →
      windowsAux mc f1 l = windowsAux mc f2 l := by
  intro f1
  induction f1 with
  | zero =>
    intro f2 l h1 _
    have : l = [] := List.length_eq_zero.mp (Nat.le_zero.mp h1)
    subst this
    cases f2 <;> rfl
  | succ f ih =>
    intro f2 l h1 h2
    cases l with
    | nil => cases f2 <;> rfl
    | cons a t =>
      cases f2 with
      | zero => simp at h2
      | succ g =>
        show (a :: t).take mc :: windowsAux mc f ((a :: t).drop mc) =
          (a :: t).take mc :: windowsAux mc g ((a :: t).drop mc)
        have hd : ((a :: t).drop mc).length ≤ f := by
          simp only [List.length_drop, List.length_cons] at *
          omega
        have hd2 : ((a :: t).drop mc).length ≤ g := by
          simp only [List.length_drop, List.length_cons] at *
          omega
        rw [ih g _ hd hd2]

lemma windows_cons {α : Type} (m : Nat) (a : α) (l : List α) :
    windows (m + 1) (a :: l) =
      (a :: l).take (m + 1) :: windows (m + 1) ((a :: l).drop (m + 1)) := by
  show (a :: l).take (m + 1) :: windowsAux (m + 1) l.length ((a :: l).drop (m + 1)) =
    (a :: l).take (m + 1) :: windows (m + 1) ((a :: l).drop (m + 1))
  unfold windows
  rw [windowsAux_fuel (m + 1) (Nat.succ_pos m) l.length ((a :: l).drop (m + 1)).length
    ((a :: l).drop (m + 1)) (by simp [List.length_drop]) (Nat.le_refl _)]

lemma windows_flatten {α : Type} (m : Nat) :
    ∀ l : List α, (windows (m + 1) l).flatten = l
  | [] => by rw [windows_nil]; rfl
  | a :: t => by
    rw [windows_cons, List.flatten_cons,
      windows_flatten m ((a :: t).drop (m + 1)), List.take_append_drop]
termination_by l => l.length
decreasing_by simp_wf; omega

lemma windows_mem_bounds {α : Type} (m : Nat) :
    ∀ l : List α, ∀ w ∈ windows (m + 1) l, 0 < w.length ∧ w.length ≤ m + 1
  | [] => by rw [windows_nil]; intro w hw; cases hw
  | a :: t => by
    intro w hw
    rw [windows_cons] at hw
    rcases List.mem_cons.mp hw with h | h
    · subst h
      refine ⟨?_, ?_⟩ <;> simp [List.length_take]
    · exact windows_mem_bounds m ((a :: t).drop (m + 1)) w h
termination_by l => l.length
decreasing_by simp_wf; omega

lemma foldl_append_map {E : Type} (f : JsStr → E) :
    ∀ (ws : List (List JsStr)) (acc : List E),
      ws.foldl (fun a b => a ++ b.map f) acc = acc ++ (ws.map (fun w => w.map f)).flatten
  | [], acc => by simp
  | w :: ws, acc => by
    rw [List.foldl_cons, foldl_append_map f ws]
    simp [List.append_assoc]

/-- Batching: `generateEmbeddings` is the plain map of the provider call over the
input, for any positive concurrency cap. -/
lemma generateEmbeddings_eq_map {E : Type} (mc : Nat) (h : 0 < mc) (f : JsStr → E)
    (texts : List JsStr) : generateEmbeddings mc f texts = texts.map f := by
  cases mc with
  | zero => omega
  | succ m =>
    unfold generateEmbeddings
    rw [foldl_append_map, List.nil_append, ← List.map_flatten, windows_flatten]

/-- C7: with a positive configured cap, batch embedding returns exactly
one result per input text in input order (result `i` is the embedding
of text `i`); the input is partitioned into consecutive windows — their
concatenation in order is the input — and every window, i.e. every
group of concurrently in-flight `generateEmbedding` calls, has at most
`maxConcurrent` elements.  Windows are processed strictly sequentially
by the fold, mirroring the `await` between loop iterations. -/
theorem batch_embedding_preserves_order {E : Type} (mc : Nat) (embed : JsStr → E)
    (texts : List JsStr) (h : 0 < mc) :
    generateEmbeddings mc embed texts = texts.map embed ∧
    (windows mc texts).flatten = texts ∧
    ∀ w ∈ windows mc texts, 0 < w.length ∧ w.length ≤ mc := by
  cases mc with
  | zero => omega
  | succ m =>
    exact ⟨generateEmbeddings_eq_map (m + 1) h embed texts,
      windows_flatten m texts, windows_mem_bounds m texts⟩

/-- Witness for C7 at a concrete cap and input list. -/
theorem batch_embedding_preserves_order_witness :
    0 < 2 ∧
    generateEmbeddings 2 (fun s : JsStr => s.length)
        ["a".toList, "bc".toList, "d".toList] =
      (["a".toList, "bc".toList, "d".toList] : List JsStr).map (fun s => s.length) :=
  ⟨by decide,
    (batch_embedding_preserves_order 2 (fun s : JsStr => s.length)
      ["a".toList, "bc".toList, "d".toList] (by decide)).1⟩

/-! ## Claims about retrieval (C5, C10) -/

/-- Metadata shared by the store stub of the threshold scenario. -/
def demoMetadata : RecordMetadata :=
  { documentId := ['d'], chunkIndex := 0, chunkText := ['t'], encrypted := true,
    encryptedData := some "payload", docMeta := [] }

/-- The store stub of the spec scenario: three matches with scores
0.9, 0.75, 0.5 in descending order. -/
def demoStoreResults : List QueryResultM :=
  [ { id := ['a'], score := mkRat 9 10, metadata := demoMetadata },
    { id := ['b'], score := mkRat 3 4, metadata := demoMetadata },
    { id := ['c'], score := mkRat 1 2, metadata := demoMetadata } ]

/-- C5: `retrieve` keeps exactly the results whose score is at least
the configured threshold (inclusive), in the order the store returned
them: the output is the filter of the promoted results (first
conjunct), every returned score clears the threshold (second), the
output is a sublist of the promoted input — order preserved, nothing
re-sorted (third) — and the spec scenario with scores 0.9, 0.75, 0.5
against threshold 0.7 returns exactly two results in that score order
(fourth). -/
theorem retrieve_threshold_filter (threshold : ℚ) (results : List QueryResultM) :
    filterByThreshold threshold results =
      (results.map toRetrievalResult).filter (fun r => threshold ≤ r.score) ∧
    (∀ r ∈ filterByThreshold threshold results, threshold ≤ r.score) ∧
    (filterByThreshold threshold results).Sublist (results.map toRetrievalResult) ∧
    (filterByThreshold (mkRat 7 10) demoStoreResults).map (fun r => r.score) =
      [mkRat 9 10, mkRat 3 4] := by
  have hcomm : filterByThreshold threshold results =
      (results.map toRetrievalResult).filter (fun r => threshold ≤ r.score) := by
    rw [List.filter_map]
    rfl
  refine ⟨hcomm, ?_, ?_, by decide⟩
  · intro r hr
    rw [hcomm] at hr
    have := List.of_mem_filter hr
    simpa using this
  · rw [hcomm]
    exact List.filter_sublist _

/-- Witness for C5: the top-scored result is returned and clears the
threshold. -/
theorem retrieve_threshold_filter_witness :
    toRetrievalResult { id := ['a'], score := mkRat 9 10, metadata := demoMetadata } ∈
      filterByThreshold (mkRat 7 10) demoStoreResults ∧
    mkRat 7 10 ≤
      (toRetrievalResult { id := ['a'], score := mkRat 9 10, metadata := demoMetadata }).score :=
  ⟨by decide,
    (retrieve_threshold_filter (mkRat 7 10) demoStoreResults).2.1 _ (by decide)⟩

/-- C10: a caller-supplied `topK` of `0` (or a missing `topK`) is falsy
in `const k = topK || this.maxContextChunks`, so the store is queried
with the configured default `maxContextChunks`; a caller cannot request
zero results explicitly. -/
theorem retrieve_topk_zero_uses_default (store : List ℚ → Int → List QueryResultM)
    (embedQ : JsStr → List ℚ) (maxContextChunks : Int) (threshold : ℚ) (query : JsStr) :
    jsOrNum (some 0) maxContextChunks = maxContextChunks ∧
    jsOrNum none maxContextChunks = maxContextChunks ∧
    retrieveModel store embedQ maxContextChunks threshold query (some 0) =
      filterByThreshold threshold (store (embedQ query) maxContextChunks) ∧
    retrieveModel store embedQ maxContextChunks threshold query (some 0) =
      retrieveModel store embedQ maxContextChunks threshold query none := by
  refine ⟨by simp [jsOrNum], by simp [jsOrNum], by simp [retrieveModel, jsOrNum], by
    simp [retrieveModel, jsOrNum]⟩

/-! ## Claims about ingestion (C1, C9) -/

lemma range_map_getD {α : Type} (l : List α) (d : α) (n : Nat) (hn : n = l.length) :
    (List.range n).map (fun i => l.getD i d) = l := by
  subst hn
  refine List.ext_getElem (by simp) ?_
  intro i h1 h2
  rw [List.getElem_map, List.getElem_range]
  exact List.getD_eq_getElem l d h2

/-- A concrete ingestion environment: the concrete crypto model, an
empty key, all-zero IVs, a provider stub returning the constant vector
`[1, 2, 3]`, the default chunker configuration (500/50), and the
default concurrency cap 10. -/
def demoEnv : IngestEnv :=
  { NC := nodeCryptoModel
    key := []
    ivFor := fun _ => List.replicate 12 0
    embed := fun _ => [1, 2, 3]
    cfg := { chunkSize := 500, chunkOverlap := 50 }
    maxConcurrent := 10 }

/-- A concrete one-chunk document. -/
def demoDoc : DocumentM :=
  { id := "doc1".toList, content := "Patient has fever.".toList, metadata := [] }

/-- A document with empty content. -/
def emptyDoc : DocumentM :=
  { id := "doc0".toList, content := [], metadata := [] }

/-- C1 counterexample: for a concrete document whose single chunk embeds
to `[1, 2, 3]`, the record handed to `CyborgDbService.upsert` carries
exactly that plaintext embedding in its `vector` field, and the wire
object posted to the store carries it in `values` — so a plaintext
embedding vector is both persisted with and transmitted to the vector
store, contradicting the claim. -/
theorem ingest_transmits_plaintext_vector :
    (ingestRecords demoEnv demoDoc).map (fun r => r.vector) = [[1, 2, 3]] ∧
    (upsertWire (ingestRecords demoEnv demoDoc)).map (fun w => w.values) = [[1, 2, 3]] ∧
    demoEnv.embed ((chunkText demoEnv.cfg demoDoc.content).getD 0 ⟨[], 0⟩).text =
      [1, 2, 3] :=
  ⟨by decide, by decide, by decide⟩

/-- C1 amended: each `VectorRecord` built by `ingestDocument` carries
the plaintext embedding of its chunk in the `vector` field — which
`upsert` transmits as the wire `values` field — while a ciphertext
copy of the same embedding is stored in `metadata.encryptedData`; the
payload sent to the store is therefore not ciphertext-only. -/
theorem ingest_record_fields (env : IngestEnv) (doc : DocumentM)
    (hmc : 0 < env.maxConcurrent) :
    (ingestRecords env doc).map (fun r => r.vector) =
      (chunkText env.cfg doc.content).map (fun c => env.embed c.text) ∧
    (upsertWire (ingestRecords env doc)).map (fun w => w.values) =
      (chunkText env.cfg doc.content).map (fun c => env.embed c.text) ∧
    (ingestRecords env doc).map (fun r => r.metadata.encryptedData) =
      (List.range (chunkText env.cfg doc.content).length).map (fun i =>
        some (encryptVector env.NC env.key (env.ivFor i)
          (env.embed ((chunkText env.cfg doc.content).getD i ⟨[], 0⟩).text))) := by
  have hemb : generateEmbeddings env.maxConcurrent env.embed
      ((chunkText env.cfg doc.content).map (fun c => c.text)) =
      ((chunkText env.cfg doc.content).map (fun c => c.text)).map env.embed :=
    generateEmbeddings_eq_map env.maxConcurrent hmc env.embed _
  have hvec : (ingestRecords env doc).map (fun r => r.vector) =
      (chunkText env.cfg doc.content).map (fun c => env.embed c.text) := by
    unfold ingestRecords
    rw [List.map_map]
    simp only [Function.comp_def, hemb]
    rw [range_map_getD _ _ _ (by simp), List.map_map]
    rfl
  refine ⟨hvec, ?_, ?_⟩
  · unfold upsertWire
    rw [List.map_map]
    exact hvec
  · unfold ingestRecords
    rw [List.map_map]
    refine List.map_congr_left ?_
    intro i hi
    have hilt : i < (chunkText env.cfg doc.content).length := List.mem_range.mp hi
    simp only [Function.comp_def, hemb]
    have : (((chunkText env.cfg doc.content).map (fun c => c.text)).map env.embed).getD i [] =
        env.embed ((chunkText env.cfg doc.content).getD i ⟨[], 0⟩).text := by
      rw [List.getD_eq_getElem _ _ (by simpa using hilt),
        List.getD_eq_getElem _ _ hilt, List.getElem_map, List.getElem_map]
    rw [this]

/-- Witness for the amended C1 at the concrete environment. -/
theorem ingest_record_fields_witness :
    0 < demoEnv.maxConcurrent ∧
    (ingestRecords demoEnv demoDoc).map (fun r => r.vector) =
      (chunkText demoEnv.cfg demoDoc.content).map (fun c => demoEnv.embed c.text) :=
  ⟨by decide, (ingest_record_fields demoEnv demoDoc (by decide)).1⟩

lemma chunkText_nil (cfg : ChunkerConfig) : chunkText cfg [] = [] := rfl

/-- C9 counterexample: ingesting a document with empty content is not
rejected — there is no validation step at all.  The call returns the
empty identifier list as a success, issues no provider call, and still
contacts the store with one `upsert` of an empty batch, contradicting
"fails before any network call". -/
theorem ingest_empty_content_not_rejected :
    (ingestDocumentTrace demoEnv emptyDoc).result = [] ∧
    (ingestDocumentTrace demoEnv emptyDoc).providerCalls = 0 ∧
    (ingestDocumentTrace demoEnv emptyDoc).storeUpsertCalls = [[]] :=
  ⟨by decide, by decide, by decide⟩

/-- C9 amended: the ingest pipeline performs no validation.  A document
with empty content produces zero chunks and zero provider calls, yet
the pipeline still upserts an empty batch to the store and returns an
empty identifier list as a success rather than raising a
ValidationError; and for every document and every embedding provider —
whatever the length of the vectors it returns, so no dimension check
either — ingestion stores exactly one record per chunk. -/
theorem ingest_no_validation :
    (∀ env doc, doc.content = [] →
      (ingestDocumentTrace env doc).result = [] ∧
      (ingestDocumentTrace env doc).providerCalls = 0 ∧
      (ingestDocumentTrace env doc).storeUpsertCalls = [[]]) ∧
    (∀ env doc, (ingestDocumentTrace env doc).result.length =
      (chunkText env.cfg doc.content).length) := by
  constructor
  · intro env doc hc
    have hch : chunkText env.cfg doc.content = [] := by rw [hc, chunkText_nil]
    refine ⟨?_, ?_, ?_⟩ <;>
      simp [ingestDocumentTrace, ingestRecords, upsertWire, hch, windows_nil]
  · intro env doc
    simp [ingestDocumentTrace, ingestRecords]

/-- Witness for the amended C9 at the concrete empty document. -/
theorem ingest_no_validation_witness :
    emptyDoc.content = [] ∧
    (ingestDocumentTrace demoEnv emptyDoc).storeUpsertCalls = [[]] :=
  ⟨rfl, (ingest_no_validation.1 demoEnv emptyDoc rfl).2.2⟩

/-! ## Claim about chunk sizes (C6) -/

lemma trimEnd_append_space (l : JsStr) : trimEnd (l ++ [' ']) = trimEnd l := by
  unfold trimEnd
  rw [List.reverse_append]
  simp [List.dropWhile_cons, isWsChar]

lemma jsTrim_append_space (l : JsStr) : jsTrim (l ++ [' ']) = jsTrim l := by
  unfold jsTrim
  rw [trimEnd_append_space]

lemma trimStart_length_le (l : JsStr) : (trimStart l).length ≤ l.length :=
  (List.dropWhile_sublist _).length_le

lemma trimEnd_length_le (l : JsStr) : (trimEnd l).length ≤ l.length := by
  unfold trimEnd
  rw [List.length_reverse]
  have h := (List.dropWhile_sublist (l := l.reverse) isWsChar).length_le
  rwa [List.length_reverse] at h

lemma jsTrim_length_le (l : JsStr) : (jsTrim l).length ≤ l.length :=
  le_trans (trimStart_length_le _) (trimEnd_length_le _)

/-- A buffer seed as produced at a reseed: empty (the initial buffer)
or the overlap of some previous buffer. -/
def seedOk (cfg : ChunkerConfig) (seed : JsStr) : Prop :=
  seed = [] ∨ ∃ prev, seed = overlapSeed cfg prev

/-- The shape every emitted chunk text has: within the configured size,
or the trim of a seed followed by a single sentence-unit — the unit
appended in the same loop iteration as a reseed, with no second size
check. -/
def chunkOk (cfg : ChunkerConfig) (sents : List JsStr) (t : JsStr) : Prop :=
  t.length ≤ cfg.chunkSize ∨
  ∃ seed s, seedOk cfg seed ∧ s ∈ sents ∧ t = jsTrim (seed ++ s ++ [' '])

/-- Invariant on the running buffer: empty, or bounded by one more than
the chunk size and ending in the space every append adds, or exactly a
seed plus one sentence-unit. -/
def currentOk (cfg : ChunkerConfig) (sents : List JsStr) (cur : JsStr) : Prop :=
  cur = [] ∨
  (cur.length ≤ cfg.chunkSize + 1 ∧ ∃ l0, cur = l0 ++ [' ']) ∨
  ∃ seed s, seedOk cfg seed ∧ s ∈ sents ∧ cur = seed ++ s ++ [' ']

/-- Invariant on the whole loop state. -/
def chunkStateOk (cfg : ChunkerConfig) (sents : List JsStr) (st : ChunkerState) : Prop :=
  (∀ c ∈ st.chunks, chunkOk cfg sents c.text) ∧ currentOk cfg sents st.current

lemma currentOk_trim (cfg : ChunkerConfig) (sents : List JsStr) (cur : JsStr)
    (h : currentOk cfg sents cur) : chunkOk cfg sents (jsTrim cur) := by
  rcases h with hnil | ⟨hlen, l0, hl0⟩ | ⟨seed, s0, hseed, hs0, hcur⟩
  · rw [hnil]
    exact Or.inl (Nat.zero_le _)
  · subst hl0
    left
    have h1 : (jsTrim (l0 ++ [' '])).length ≤ l0.length := by
      rw [jsTrim_append_space]
      exact jsTrim_length_le l0
    have h2 : (l0 ++ [' ']).length = l0.length + 1 := by simp
    omega
  · subst hcur
    exact Or.inr ⟨seed, s0, hseed, hs0, rfl⟩

lemma chunkStep_preserves (cfg : ChunkerConfig) (sents : List JsStr)
    (st : ChunkerState) (s : JsStr) (hs : s ∈ sents)
    (h : chunkStateOk cfg sents st) : chunkStateOk cfg sents (chunkStep cfg st s) := by
  obtain ⟨hchunks, hcur⟩ := h
  by_cases hcond : cfg.chunkSize < st.current.length + s.length ∧ 0 < st.current.length
  · simp only [chunkStep, if_pos hcond]
    constructor
    · intro c hc
      rcases List.mem_append.mp hc with h1 | h2
      · exact hchunks c h1
      · have hcval : c = { text := jsTrim st.current, index := st.chunkIndex } := by
          simpa using h2
        subst hcval
        exact currentOk_trim cfg sents st.current hcur
    · exact Or.inr (Or.inr
        ⟨overlapSeed cfg st.current, s, Or.inr ⟨st.current, rfl⟩, hs, rfl⟩)
  · simp only [chunkStep, if_neg hcond]
    refine ⟨hchunks, ?_⟩
    rcases hcur with hnil | ⟨hlen, l0, hl0⟩ | ⟨seed, s0, hseed, hs0, hc3⟩
    · rw [hnil]
      exact Or.inr (Or.inr ⟨[], s, Or.inl rfl, hs, rfl⟩)
    · have hne : 0 < st.current.length := by rw [hl0]; simp
      have hA : ¬ cfg.chunkSize < st.current.length + s.length := fun hA => hcond ⟨hA, hne⟩
      refine Or.inr (Or.inl ⟨?_, st.current ++ s, rfl⟩)
      simp only [List.length_append, List.length_cons, List.length_nil]
      omega
    · have hne : 0 < st.current.length := by rw [hc3]; simp
      have hA : ¬ cfg.chunkSize < st.current.length + s.length := fun hA => hcond ⟨hA, hne⟩
      refine Or.inr (Or.inl ⟨?_, st.current ++ s, rfl⟩)
      simp only [List.length_append, List.length_cons, List.length_nil]
      omega

lemma foldl_chunkStep_ok (cfg : ChunkerConfig) (allSents : List JsStr) :
    ∀ (sents : List JsStr) (st : ChunkerState), (∀ x ∈ sents, x ∈ allSents) →
      chunkStateOk cfg allSents st →
      chunkStateOk cfg allSents (sents.foldl (chunkStep cfg) st)
  | [], _, _, h => h
  | s :: rest, st, hmem, h => by
    rw [List.foldl_cons]
    exact foldl_chunkStep_ok cfg allSents rest _
      (fun x hx => hmem x (List.mem_cons_of_mem _ hx))
      (chunkStep_preserves cfg allSents st s (hmem s (List.mem_cons_self _ _)) h)

/-- C6 counterexample: with chunk size 10 and overlap 25, the text
`"aaa bbb. cccddd."` produces the chunk `"aaa bbb  cccddd"` of length
15 — over the size — which is not a single sentence-unit (no unit of
this text exceeds the size): the overlap seed plus the triggering
sentence is emitted without a second size check. -/
theorem chunk_oversized_not_single_unit :
    ¬ (∀ c ∈ chunkText ⟨10, 25⟩ "aaa bbb. cccddd.".toList,
        c.text.length ≤ 10 ∨
        (c.text ∈ splitIntoSentences "aaa bbb. cccddd.".toList ∧ 10 < c.text.length)) := by
  decide

/-- C6 amended: every chunk is within the configured size, except
possibly chunks of the form `trim(seed + unit + " ")` — an overlap seed
(empty for the very first buffer) followed by one sentence-unit, which
is appended in the same iteration as a reseed without a further size
check and may therefore overflow even when the unit alone fits (the
claim's single-oversized-unit case is the `seed = []` instance); and
empty input produces zero chunks. -/
theorem chunk_size_bound_except_reseed (cfg : ChunkerConfig) (text : JsStr) :
    (∀ c ∈ chunkText cfg text,
      c.text.length ≤ cfg.chunkSize ∨
      ∃ seed s, (seed = [] ∨ ∃ prev, seed = overlapSeed cfg prev) ∧
        s ∈ splitIntoSentences text ∧ c.text = jsTrim (seed ++ s ++ [' '])) ∧
    chunkText cfg [] = [] := by
  constructor
  · intro c hc
    set sents := splitIntoSentences text with hsents
    set st := sents.foldl (chunkStep cfg) ⟨[], [], 0⟩ with hst
    have hinv : chunkStateOk cfg sents st :=
      foldl_chunkStep_ok cfg sents sents ⟨[], [], 0⟩ (fun x hx => hx)
        ⟨fun c0 hc0 => absurd hc0 (List.not_mem_nil c0), Or.inl rfl⟩
    have hc2 : c ∈ (if 0 < (jsTrim st.current).length then
        st.chunks ++ [{ text := jsTrim st.current, index := st.chunkIndex }]
      else st.chunks) := hc
    by_cases hfin : 0 < (jsTrim st.current).length
    · rw [if_pos hfin] at hc2
      rcases List.mem_append.mp hc2 with h1 | h2
      · exact hinv.1 c h1
      · have hcval : c = { text := jsTrim st.current, index := st.chunkIndex } := by
          simpa using h2
        rw [hcval]
        exact currentOk_trim cfg sents st.current hinv.2
    · rw [if_neg hfin] at hc2
      exact hinv.1 c hc2
  · exact chunkText_nil cfg

/-- Witness for the amended C6 at the counterexample input: its first
chunk is in the emitted list and satisfies the size-or-reseed
disjunction. -/
theorem chunk_size_bound_except_reseed_witness :
    ({ text := "aaa bbb".toList, index := 0 } : TextChunk) ∈
      chunkText ⟨10, 25⟩ "aaa bbb. cccddd.".toList ∧
    (({ text := "aaa bbb".toList, index := 0 } : TextChunk).text.length ≤ 10 ∨
      ∃ seed s, (seed = [] ∨ ∃ prev, seed = overlapSeed ⟨10, 25⟩ prev) ∧
        s ∈ splitIntoSentences "aaa bbb. cccddd.".toList ∧
        ({ text := "aaa bbb".toList, index := 0 } : TextChunk).text =
          jsTrim (seed ++ s ++ [' '])) :=
  ⟨by decide,
    (chunk_size_bound_except_reseed ⟨10, 25⟩ "aaa bbb. cccddd.".toList).1 _ (by decide)⟩
